import Mathlib

/-!
Verification development for the `py-trojan-emailer` repository.

The single source file `py-trojan-emailer.py` is shallowly embedded below:
Python strings become `List Char`, the argparse namespace becomes the
structure `CliArguments`, `send_email` becomes the pure message/envelope
construction `send_email`, the CSV batch driver `send_multiple_emails`
becomes a trace-producing function over parsed recipient rows, and the
interactive `confirm_action` is modelled over an explicit list of operator
input lines.
-/

namespace TrojanEmailer

/-- Python strings are modelled as lists of characters. -/
abbrev Str := List Char

/-! ## TemplateEngine: Python `str.replace`

`send_email` (lines 39-43) runs `email_body.replace('$key$', value)` for
every key/value pair of the substitution mapping, in mapping order.
Python's `str.replace` replaces all non-overlapping occurrences of the
pattern, scanning left to right.  The embedding below is fuel-indexed so
that it is structurally recursive (the fuel is the length of the scanned
string, which always suffices). -/

/-- Core scanner of Python `str.replace` for a nonempty pattern: at each
position, if the pattern matches, emit the replacement and continue after
the match, otherwise emit one character and continue. -/
def pyReplaceFuel (pat sub : Str) : Nat → Str → Str
  | _, [] => []
  | 0, s => s
  | fuel + 1, c :: rest =>
    if pat.isPrefixOf (c :: rest) then
      sub ++ pyReplaceFuel pat sub fuel (List.drop pat.length (c :: rest))
    else
      c :: pyReplaceFuel pat sub fuel rest

/-- Python `s.replace(pat, sub)`.  All patterns used by the program are
`$key$` tokens and hence nonempty; for an empty pattern the scanner is not
entered (Python's empty-pattern interleaving behaviour is unreachable
here). -/
def pyReplace (s pat sub : Str) : Str :=
  if pat.isEmpty then s else pyReplaceFuel pat sub s.length s

/-- The placeholder token `$key$` built at line 41
(`replacement_egg = '$\x7b0\x7d$'.format(key)`). -/
def token (key : Str) : Str := '$' :: key ++ ['$']

/-- The substitution loop of `send_email`, lines 39-43: for each key/value
pair of the mapping, in order, replace every occurrence of `$key$` by the
value. -/
def replace_placeholders (body : Str) (replacement_values : List (Str × Str)) : Str :=
  replacement_values.foldl (fun acc kv => pyReplace acc (token kv.1) kv.2) body

/-! ## Data model

`CliArguments` embeds the argparse namespace built in `main` (lines
146-184); field names follow the `dest` names of the argument parser.
File-typed arguments are embedded by their contents: `email_body` is the
text read from the body file (the `.read()` at line 34 on a rewound
handle), `email_attachment` carries the attachment's file name and bytes,
and `recipient_file` carries the rows already parsed by `csv.DictReader`
(line 87), each row an ordered field-name/value mapping. -/

/-- One parsed CSV row: an ordered mapping from field name to value, as
produced by `csv.DictReader` (header order preserved). -/
abbrev Recipient := List (Str × Str)

/-- An attachment file: its path (argparse `FileType` name) and bytes. -/
structure AttachmentFile where
  file_name : Str
  content : List UInt8
  deriving DecidableEq

/-- The argparse namespace of `main` (lines 146-184). -/
structure CliArguments where
  sender_address : Str
  envelope_sender_address : Option Str
  sender_display_name : Str
  hide_source_email : Bool
  cc_display_name : Option Str
  recipient : Option Str
  recipient_file : Option (List Recipient)
  email_subject : Str
  email_body : Str
  email_attachment : Option AttachmentFile
  message_format : Str
  message_priority : Str
  smtp_server : Str
  smtp_port : Nat
  sending_delay : Nat
  smtp_username : Option Str
  smtp_password : Option Str

/-- The attachment MIME part built at lines 49-59: a base64 transfer
encoding is applied to the payload bytes for transport; the part is
determined by the disposition file name (the base name of the attachment
path) and the payload bytes, which we record directly. -/
structure MimeAttachmentPart where
  content_disposition_filename : Str
  payload : List UInt8
  deriving DecidableEq

/-- The `MIMEMultipart('alternative')` message assembled by `send_email`
(lines 19-59): its headers, the attached `MIMEText` part (payload and
subtype), and the optional attachment part. -/
structure EmailMessage where
  subject : Str
  to_header : Str
  from_header : Str
  x_priority : Str
  cc : Option Str
  body_text : Str
  body_subtype : Str
  attachment : Option MimeAttachmentPart
  deriving DecidableEq

/-! ## MessageBuilder: the header and body construction of `send_email` -/

/-- Line 25: `space_hack = (' ' * 200) + '|'`. -/
def space_hack : Str := List.replicate 200 ' ' ++ ['|']

/-- Lines 22-26: the rendered From header.  Without `hide_source_email`
it is `'"SENDER-NAME" <SENDER-ADDR>'`; with it, the display-name slot
receives the name, a space (from the format string), and `space_hack`. -/
def render_from (hide_source_email : Bool) (sender_display_name sender_address : Str) : Str :=
  if hide_source_email = false then
    '"' :: sender_display_name ++ '"' :: ' ' :: '<' :: sender_address ++ ['>']
  else
    '"' :: sender_display_name ++ ' ' :: space_hack ++ '"' :: ' ' :: '<' :: sender_address ++ ['>']

/-- Lines 30-31: the spoofed CC header `'"CC-NAME" <>'`. -/
def render_cc (cc_display_name : Str) : Str :=
  '"' :: cc_display_name ++ '"' :: ' ' :: '<' :: ['>']

/-- `os.path.basename` (line 50): everything after the last `/`. -/
def basename (p : Str) : Str :=
  (p.reverse.takeWhile (fun c => c ≠ '/')).reverse

/-- The pure message construction of `send_email` (lines 19-59): headers
from the CLI arguments, body text after optional placeholder
substitution, and the optional attachment part. -/
def build_message (recipient_email_address : Str) (args : CliArguments)
    (replacement_values : Option (List (Str × Str))) : EmailMessage where
  subject := args.email_subject
  to_header := recipient_email_address
  from_header := render_from args.hide_source_email args.sender_display_name args.sender_address
  x_priority := args.message_priority
  cc := args.cc_display_name.map render_cc
  body_text :=
    match replacement_values with
    | none => args.email_body
    | some m => replace_placeholders args.email_body m
  body_subtype := args.message_format
  attachment := args.email_attachment.map fun a => ⟨basename a.file_name, a.content⟩

/-! ## SmtpDeliveryClient: the envelope sender of the delivery step -/

/-- The characters after the last `<` of a header value. -/
def after_last_angle (h : Str) : Str :=
  (h.reverse.takeWhile (fun c => c ≠ '<')).reverse

/-- The address part of a rendered From header: the text between the last
`<` and the following `>`.  This models the address that
`smtplib.send_message` extracts (via `email.utils.getaddresses`) when no
explicit `from_addr` is given. -/
def angle_addr (h : Str) : Str :=
  (after_last_angle h).takeWhile (fun c => c ≠ '>')

/-- Lines 62-80 of `send_email`: the constructed message together with
the envelope (`MAIL FROM`) sender used on the wire.  With
`--envelope_from` set, `send_message` is called with that override (line
78); otherwise `send_message` defaults to the address parsed out of the
message's From header (there is no Sender header), line 80. -/
def send_email (recipient_email_address : Str) (args : CliArguments)
    (replacement_values : Option (List (Str × Str))) : EmailMessage × Str :=
  let m := build_message recipient_email_address args replacement_values
  (m,
    match args.envelope_sender_address with
    | some a => a
    | none => angle_addr m.from_header)

/-! ## ConfirmationGate: `confirm_action` (lines 120-139)

The interactive loop is modelled over an explicit list of operator input
lines.  `Char.toLower` models Python's `str.lower`, with which it agrees
on ASCII input. -/

/-- `input(...).lower()` at line 132. -/
def str_lower (s : Str) : Str := s.map Char.toLower

/-- The decision taken from one lowercased input line (lines 134-139):
the default or an empty line confirms, the opposite yes/no token
declines, anything else yields no decision (the loop repeats). -/
def answer_of (default raw : Str) : Option Bool :=
  let choice := str_lower raw
  if choice = default ∨ choice = [] then some true
  else if (choice = ['y'] ∨ choice = ['n']) ∧ choice ≠ default then some false
  else none

/-- The `while True` loop of `confirm_action`: consume input lines until
one yields a decision; `none` if the operator never answers validly. -/
def confirm_loop (default : Str) : List Str → Option Bool
  | [] => none
  | raw :: rest =>
    match answer_of default raw with
    | some b => some b
    | none => confirm_loop default rest

/-- Lines 125-128: the prompt suffix is assigned only for the defaults
`'y'` and `'n'`; for any other default the local variable stays
unassigned. -/
def prompt_for (default : Str) : Option Str :=
  if default = ['y'] then some " [Y/n] ".data
  else if default = ['n'] then some " [y/N] ".data
  else none

/-- Outcome of a `confirm_action` call: a decision (or a still-waiting
loop), or the `UnboundLocalError` raised when `question + prompt` is
evaluated with `prompt` never assigned. -/
inductive ConfirmOutcome where
  | ok (value : Option Bool)
  | unbound_local_error
  deriving DecidableEq

/-- The question lines actually presented: one `question + prompt` line
per loop iteration (line 131), stopping after the deciding input. -/
def confirm_shown (question prompt default : Str) : List Str → List Str
  | [] => []
  | raw :: rest =>
    (question ++ prompt) ::
      match answer_of default raw with
      | some _ => []
      | none => confirm_shown question prompt default rest

/-- `confirm_action` (lines 120-139): resolves the prompt suffix, then
runs the loop; if the prompt suffix was never assigned the first use of
`prompt` fails before the question is presented. -/
def confirm_action (question default : Str) (inputs : List Str) :
    List Str × ConfirmOutcome :=
  match prompt_for default with
  | none => ([], .unbound_local_error)
  | some prompt =>
    (confirm_shown question prompt default inputs, .ok (confirm_loop default inputs))

/-! ## RecipientBatchProcessor: `send_multiple_emails` (lines 83-117)

The run is modelled as the list of observable events it produces, in
order: validation failures, the confirmation prompt, the operator
decline, message submissions and inter-send delays. -/

/-- The field names of a parsed row (the keys of the `DictReader` dict). -/
def recipient_keys (r : Recipient) : List Str := r.map Prod.fst

/-- Dictionary access `row[key]` on a parsed row.  `DictReader` gives
every row exactly the header's keys, so lookups in the batch loop always
hit; a missing key is embedded as the empty string. -/
def dict_get (r : Recipient) (key : Str) : Str :=
  match r.find? (fun kv => decide (kv.1 = key)) with
  | some kv => kv.2
  | none => []

/-- Observable events of a program run. -/
inductive Event where
  | validation_error_too_short
  | validation_error_missing_field
  | confirm_prompt
  | user_declined
  | send (recipient : Str) (message : EmailMessage) (envelope_from : Str)
  | sleep (seconds : Nat)
  deriving DecidableEq

/-- One `send_email` call observed as a submission event. -/
def send_email_event (recipient_email_address : Str) (args : CliArguments)
    (replacement_values : Option (List (Str × Str))) : Event :=
  let r := send_email recipient_email_address args replacement_values
  .send recipient_email_address r.1 r.2

/-- Lines 114-117: per recipient, in row order, one `send_email` call
with the recipient's full field mapping, then `sleep(sending_delay)`. -/
def batch_loop (args : CliArguments) : List Recipient → List Event
  | [] => []
  | r :: rest =>
    send_email_event (dict_get r "EmailAddress".data) args (some r) ::
      Event.sleep args.sending_delay :: batch_loop args rest

/-- `send_multiple_emails` (lines 83-117): validation of the parsed rows
(zero data rows, missing `EmailAddress` header field), the confirmation
gate with default `'y'`, then the send loop.  If the operator never gives
a valid answer the loop never returns (no further events). -/
def send_multiple_emails (rows : List Recipient) (args : CliArguments)
    (inputs : List Str) : List Event :=
  match rows with
  | [] => [.validation_error_too_short]
  | r0 :: _ =>
    if "EmailAddress".data ∉ recipient_keys r0 then
      [.validation_error_missing_field]
    else
      .confirm_prompt ::
        match confirm_loop ['y'] inputs with
        | some true => batch_loop args rows
        | some false => [.user_declined]
        | none => []

/-! ## main (lines 142-201) -/

/-- Lines 190-191: the credential consistency condition, written exactly
as in the source: `(username is not None or password is not None) and
(username is None or password is None)`. -/
def credential_mismatch (args : CliArguments) : Bool :=
  (args.smtp_username.isSome || args.smtp_password.isSome) &&
    (args.smtp_username.isNone || args.smtp_password.isNone)

/-- Observable outcome of `main` after argument parsing. -/
inductive MainOutcome where
  | configuration_error
  | single_send (e : Event)
  | batch_run (events : List Event)
  | no_action
  deriving DecidableEq

/-- Lines 189-201: the credential check, then dispatch to a single send
or the batch processor (the two recipient options are mutually
exclusive). -/
def main (args : CliArguments) (inputs : List Str) : MainOutcome :=
  if credential_mismatch args then .configuration_error
  else
    match args.recipient with
    | some r => .single_send (send_email_event r args none)
    | none =>
      match args.recipient_file with
      | some rows => .batch_run (send_multiple_emails rows args inputs)
      | none => .no_action

/-! ## Auxiliary definitions used by the statements -/

/-- Segments interleaved with a separator: `join_with sep [a, b, c] = a
++ sep ++ b ++ sep ++ c`.  Used to describe bodies whose only `$`
characters delimit placeholder tokens. -/
def join_with (sep : Str) : List Str → Str
  | [] => []
  | [s] => s
  | s :: s' :: rest => s ++ sep ++ join_with sep (s' :: rest)

/-- The body texts of the submission events of a trace, in order. -/
def sent_bodies (events : List Event) : List Str :=
  events.filterMap fun e =>
    match e with
    | .send _ m _ => some m.body_text
    | _ => none

/-- The recipient addresses of the submission events of a trace, in
order. -/
def sent_recipients (events : List Event) : List Str :=
  events.filterMap fun e =>
    match e with
    | .send r _ _ => some r
    | _ => none

/-! ## Concrete inputs used to instantiate the theorems -/

/-- A baseline argparse namespace: a single send with no authentication,
no spoofing options, default format/priority/port/delay. -/
def sample_args : CliArguments :=
  ⟨"alice@example.com".data, none, "Alice Admin".data, false, none,
   some "bob@example.com".data, none, "Quarterly report".data, "Hello".data,
   none, "html".data, "3".data, "smtp.example.com".data, 25, 10, none, none⟩

/-- The same namespace with a username configured but no password. -/
def half_credentials_args : CliArguments :=
  ⟨"alice@example.com".data, none, "Alice Admin".data, false, none,
   some "bob@example.com".data, none, "Quarterly report".data, "Hello".data,
   none, "html".data, "3".data, "smtp.example.com".data, 25, 10,
   some "operator".data, none⟩

/-- First recipient row of the end-to-end batch scenario. -/
def alice_row : Recipient :=
  [("EmailAddress".data, "a@x.com".data), ("Name".data, "Alice".data)]

/-- Second recipient row of the end-to-end batch scenario. -/
def bob_row : Recipient :=
  [("EmailAddress".data, "b@x.com".data), ("Name".data, "Bob".data)]

/-- A row whose header has `Email` and `email_address` columns but not
`EmailAddress`. -/
def wrong_header_row : Recipient :=
  [("Email".data, "a@x.com".data), ("email_address".data, "b@y.com".data)]

/-- The batch-scenario namespace: body template `Hi $Name$`, delay 0. -/
def scenario_args : CliArguments :=
  ⟨"alice@example.com".data, none, "Alice Admin".data, false, none, none,
   some [alice_row, bob_row], "Quarterly report".data, "Hi $Name$".data,
   none, "html".data, "3".data, "smtp.example.com".data, 25, 0, none, none⟩

/-! ### Basic equations for `pyReplace` -/

theorem pyReplaceFuel_congr (pat sub : Str) (hp : pat ≠ []) :
    ∀ f₁ f₂ s, s.length ≤ f₁ → s.length ≤ f₂ →
      pyReplaceFuel pat sub f₁ s = pyReplaceFuel pat sub f₂ s := by
  intro f₁
  induction f₁ with
  | zero =>
    intro f₂ s h₁ _
    have hs : s = [] := List.eq_nil_of_length_eq_zero (Nat.le_zero.mp h₁)
    subst hs
    cases f₂ <;> rfl
  | succ f ih =>
    intro f₂ s h₁ h₂
    cases s with
    | nil => cases f₂ <;> rfl
    | cons c rest =>
      cases f₂ with
      | zero => exact absurd h₂ (by simp)
      | succ f' =>
        have hpatlen : 1 ≤ pat.length := by
          cases pat with
          | nil => exact absurd rfl hp
          | cons _ _ => simp
        simp only [List.length_cons] at h₁ h₂
        simp only [pyReplaceFuel]
        by_cases hpre : pat.isPrefixOf (c :: rest)
        · rw [if_pos hpre, if_pos hpre]
          have hd : (List.drop pat.length (c :: rest)).length ≤ f ∧
              (List.drop pat.length (c :: rest)).length ≤ f' := by
            simp only [List.length_drop, List.length_cons]
            constructor <;> omega
          rw [ih f' _ hd.1 hd.2]
        · rw [if_neg hpre, if_neg hpre]
          have h₁' : rest.length ≤ f := by omega
          have h₂' : rest.length ≤ f' := by omega
          rw [ih f' rest h₁' h₂']

theorem pyReplace_nil (pat sub : Str) : pyReplace [] pat sub = [] := by
  unfold pyReplace pyReplaceFuel
  split <;> rfl

theorem pyReplace_matched (pat sub s : Str) (hp : pat ≠ [])
    (h : pat.isPrefixOf s) :
    pyReplace s pat sub = sub ++ pyReplace (List.drop pat.length s) pat sub := by
  have hpe : pat.isEmpty = false := by cases pat <;> simp_all
  cases s with
  | nil =>
    have : pat = [] := by
      cases pat with
      | nil => rfl
      | cons a l => simp [List.isPrefixOf] at h
    exact absurd this hp
  | cons c rest =>
    have hpatlen : 1 ≤ pat.length := by
      cases pat with
      | nil => exact absurd rfl hp
      | cons _ _ => simp
    simp only [pyReplace, hpe, Bool.false_eq_true, if_false, List.length_cons]
    simp only [pyReplaceFuel]
    rw [if_pos h]
    congr 1
    apply pyReplaceFuel_congr pat sub hp
    · simp only [List.length_drop, List.length_cons]; omega
    · exact Nat.le_refl _

theorem pyReplace_unmatched (pat sub : Str) (c : Char) (rest : Str)
    (hp : pat ≠ []) (h : ¬ pat.isPrefixOf (c :: rest)) :
    pyReplace (c :: rest) pat sub = c :: pyReplace rest pat sub := by
  have hpe : pat.isEmpty = false := by cases pat <;> simp_all
  simp only [pyReplace, hpe, Bool.false_eq_true, if_false, List.length_cons]
  simp only [pyReplaceFuel]
  rw [if_neg h]

/-! ### Header-address extraction lemmas -/

theorem takeWhile_append_stop {α : Type} (p : α → Bool) (l : List α) (c : α)
    (r : List α) (hl : ∀ a ∈ l, p a = true) (hc : p c = false) :
    (l ++ c :: r).takeWhile p = l := by
  induction l with
  | nil => simp [List.takeWhile_cons, hc]
  | cons a l ih =>
    have ha := hl a (List.mem_cons_self a l)
    simp [List.takeWhile_cons, ha, ih fun b hb => hl b (List.mem_cons_of_mem a hb)]

theorem angle_addr_append (pre addr : Str) (h1 : '<' ∉ addr) (h2 : '>' ∉ addr) :
    angle_addr (pre ++ '<' :: addr ++ ['>']) = addr := by
  have hrev : (pre ++ '<' :: addr ++ ['>']).reverse
      = ('>' :: addr.reverse) ++ '<' :: pre.reverse := by
    simp [List.reverse_append, List.append_assoc]
  have hfree : ∀ a ∈ ('>' :: addr.reverse), (decide (a ≠ '<')) = true := by
    intro a ha
    rcases List.mem_cons.mp ha with h | h
    · subst h; decide
    · have hm : a ∈ addr := List.mem_reverse.mp h
      have : a ≠ '<' := fun hh => h1 (hh ▸ hm)
      simp [this]
  have hfree2 : ∀ a ∈ addr, (decide (a ≠ '>')) = true := by
    intro a ha
    have : a ≠ '>' := fun hh => h2 (hh ▸ ha)
    simp [this]
  unfold angle_addr after_last_angle
  rw [hrev, takeWhile_append_stop _ _ _ _ hfree (by decide)]
  rw [List.reverse_cons, List.reverse_reverse]
  rw [show addr ++ ['>'] = addr ++ '>' :: [] from rfl,
    takeWhile_append_stop _ _ _ _ hfree2 (by decide)]

theorem angle_addr_render_from (hide : Bool) (name addr : Str)
    (h1 : '<' ∉ addr) (h2 : '>' ∉ addr) :
    angle_addr (render_from hide name addr) = addr := by
  cases hide with
  | false =>
    have e : render_from false name addr
        = ('"' :: name ++ ['"', ' ']) ++ '<' :: addr ++ ['>'] := by
      simp [render_from]
    rw [e, angle_addr_append _ _ h1 h2]
  | true =>
    have e0 : render_from true name addr
        = '"' :: name ++ ' ' :: space_hack ++ '"' :: ' ' :: '<' :: addr ++ ['>'] := rfl
    have e : render_from true name addr
        = ('"' :: name ++ ' ' :: space_hack ++ ['"', ' ']) ++ '<' :: addr ++ ['>'] := by
      rw [e0]
      simp only [List.cons_append, List.append_assoc, List.nil_append]
    rw [e, angle_addr_append _ _ h1 h2]

/-! ## Claims -/

/-- C1, counterexample: with the hide-address option enabled, display
name `A` and sender address `b`, the rendered From header is not the
display name followed by exactly 200 spaces, a pipe and the bracketed
address: the format string wraps the display-name slot in double quotes
and contributes one further space before the 200-space run. -/
theorem claim_c1_counterexample :
    ¬ render_from true "A".data "b".data
        = "A".data ++ List.replicate 200 ' ' ++ '|' :: '<' :: "b".data ++ ['>'] := by
  decide

/-- C1 (amended): when the hide-address option is enabled, for every
display name and sender address the rendered From header consists of a
double quote, the display name, a run of exactly 201 space characters
(one from the format string plus the 200 of `space_hack`), a pipe
character, a closing double quote, a space, and the true sender address
in angle brackets. -/
theorem claim_c1_hidden_from_header (sender_display_name sender_address : Str) :
    render_from true sender_display_name sender_address
      = '"' :: sender_display_name ++ List.replicate 201 ' '
          ++ '|' :: '"' :: ' ' :: '<' :: sender_address ++ ['>'] := by
  have h : List.replicate 201 ' ' = ' ' :: List.replicate 200 ' ' := rfl
  have e0 : render_from true sender_display_name sender_address
      = '"' :: sender_display_name ++ ' ' :: space_hack
          ++ '"' :: ' ' :: '<' :: sender_address ++ ['>'] := rfl
  rw [e0, h, show space_hack = List.replicate 200 ' ' ++ ['|'] from rfl]
  simp only [List.cons_append, List.append_assoc, List.singleton_append, List.nil_append]

/-- C3: with an envelope-sender override configured, the envelope (MAIL
FROM) sender is the override while the From header still carries the
sender-identity address; with no override, the envelope sender is exactly
the address of the From header, namely the sender-identity address.  The
hypotheses say the configured sender address contains no angle bracket,
so that the address the SMTP client parses back out of the rendered
header is the address itself. -/
theorem claim_c3_envelope_header_divergence (args : CliArguments)
    (recipient_email_address : Str) (replacement_values : Option (List (Str × Str)))
    (h1 : '<' ∉ args.sender_address) (h2 : '>' ∉ args.sender_address) :
    (∀ o, args.envelope_sender_address = some o →
      (send_email recipient_email_address args replacement_values).2 = o ∧
      angle_addr (send_email recipient_email_address args replacement_values).1.from_header
        = args.sender_address) ∧
    (args.envelope_sender_address = none →
      (send_email recipient_email_address args replacement_values).2 = args.sender_address ∧
      (send_email recipient_email_address args replacement_values).2
        = angle_addr (send_email recipient_email_address args replacement_values).1.from_header) := by
  have hfrom : (send_email recipient_email_address args replacement_values).1.from_header
      = render_from args.hide_source_email args.sender_display_name args.sender_address := rfl
  constructor
  · intro o ho
    constructor
    · simp [send_email, ho]
    · rw [hfrom, angle_addr_render_from _ _ _ h1 h2]
  · intro ho
    have h3 : (send_email recipient_email_address args replacement_values).2
        = angle_addr (render_from args.hide_source_email args.sender_display_name
            args.sender_address) := by
      simp [send_email, ho, build_message]
    refine ⟨?_, ?_⟩
    · rw [h3, angle_addr_render_from _ _ _ h1 h2]
    · rw [h3, hfrom]

/-- C3, witness: for the baseline configuration (no override) the
envelope sender equals the configured sender address. -/
theorem claim_c3_witness :
    (send_email "bob@example.com".data sample_args none).2 = "alice@example.com".data := by
  have h := claim_c3_envelope_header_divergence sample_args "bob@example.com".data none
    (by decide) (by decide)
  exact (h.2 rfl).1

/-- C10: template substitution touches only the body.  The Subject, To,
From, CC and X-Priority headers and the attachment part of a built
message are the configured values, independent of the substitution
mapping (they equal the values of an unsubstituted build), so a
placeholder token in the subject or in any header is never substituted;
only the body text results from substitution. -/
theorem claim_c10_substitution_only_body (args : CliArguments)
    (recipient_email_address : Str) (replacement_values : List (Str × Str)) :
    (build_message recipient_email_address args (some replacement_values)).subject
        = args.email_subject ∧
    (build_message recipient_email_address args (some replacement_values)).to_header
        = recipient_email_address ∧
    (build_message recipient_email_address args (some replacement_values)).from_header
        = render_from args.hide_source_email args.sender_display_name args.sender_address ∧
    (build_message recipient_email_address args (some replacement_values)).cc
        = args.cc_display_name.map render_cc ∧
    (build_message recipient_email_address args (some replacement_values)).x_priority
        = args.message_priority ∧
    (build_message recipient_email_address args (some replacement_values)).attachment
        = (build_message recipient_email_address args none).attachment ∧
    (build_message recipient_email_address args (some replacement_values)).from_header
        = (build_message recipient_email_address args none).from_header ∧
    (build_message recipient_email_address args (some replacement_values)).body_text
        = replace_placeholders args.email_body replacement_values :=
  ⟨rfl, rfl, rfl, rfl, rfl, rfl, rfl, rfl⟩

/-- Helper for C4: the batch loop interleaves exactly one submission and
one delay per recipient row, in row order. -/
theorem batch_loop_eq_join (args : CliArguments) (rows : List Recipient) :
    batch_loop args rows
      = (rows.map fun r =>
          [send_email_event (dict_get r "EmailAddress".data) args (some r),
           Event.sleep args.sending_delay]).flatten := by
  induction rows with
  | nil => rfl
  | cons r rest ih => simp [batch_loop, ih]

/-- C4: for a confirmed batch run over a validated table, the trace is
the confirmation prompt followed by the batch loop, and the batch loop
sends one message per recipient in row order — each built from that
recipient's full field mapping — followed by a pause of the configured
delay after every send, including the last. -/
theorem claim_c4_confirmed_batch_run (rows : List Recipient) (args : CliArguments)
    (inputs : List Str) (r0 : Recipient) (rest : List Recipient)
    (hrows : rows = r0 :: rest)
    (hkey : "EmailAddress".data ∈ recipient_keys r0)
    (haccept : confirm_loop ['y'] inputs = some true) :
    send_multiple_emails rows args inputs = Event.confirm_prompt :: batch_loop args rows ∧
    batch_loop args rows
      = (rows.map fun r =>
          [send_email_event (dict_get r "EmailAddress".data) args (some r),
           Event.sleep args.sending_delay]).flatten := by
  subst hrows
  exact ⟨by simp [send_multiple_emails, hkey, haccept], batch_loop_eq_join args (r0 :: rest)⟩

/-- C4, witness: the end-to-end scenario of the claim — two rows for
`a@x.com`/Alice and `b@x.com`/Bob, body template `Hi $Name$`, delay 0,
confirmation auto-accepted by an empty input line — sends exactly two
messages, with bodies `Hi Alice` then `Hi Bob`, in that order. -/
theorem claim_c4_witness :
    sent_recipients (send_multiple_emails [alice_row, bob_row] scenario_args [([] : Str)])
      = ["a@x.com".data, "b@x.com".data] ∧
    sent_bodies (send_multiple_emails [alice_row, bob_row] scenario_args [([] : Str)])
      = ["Hi Alice".data, "Hi Bob".data] ∧
    send_multiple_emails [alice_row, bob_row] scenario_args [([] : Str)]
      = Event.confirm_prompt :: batch_loop scenario_args [alice_row, bob_row] := by
  have h := claim_c4_confirmed_batch_run [alice_row, bob_row] scenario_args [([] : Str)]
    alice_row [bob_row] rfl (by decide) (by decide)
  refine ⟨?_, ?_, h.1⟩ <;> rw [h.1] <;> decide

/-- C5: for the confirmation gate with default `'y'` or `'n'`, one input
line is lowercased, and then: input lowercasing to the default confirms,
the empty line confirms, input lowercasing to the non-default yes/no
token declines, anything else yields no decision, and an undecided line
makes the loop continue with the remaining input unchanged. -/
theorem claim_c5_confirmation_gate (default : Str)
    (hd : default = ['y'] ∨ default = ['n']) :
    (∀ raw, str_lower raw = default → answer_of default raw = some true) ∧
    (answer_of default [] = some true) ∧
    (∀ raw, str_lower raw = (if default = ['y'] then ['n'] else ['y']) →
      answer_of default raw = some false) ∧
    (∀ raw, str_lower raw ≠ default →
      str_lower raw ≠ (if default = ['y'] then ['n'] else ['y']) →
      str_lower raw ≠ [] → answer_of default raw = none) ∧
    (∀ raw rest, answer_of default raw = none →
      confirm_loop default (raw :: rest) = confirm_loop default rest) := by
  refine ⟨?_, ?_, ?_, ?_, ?_⟩
  · intro raw h
    simp [answer_of, h]
  · rcases hd with h | h <;> subst h <;> decide
  · intro raw h
    rcases hd with hdd | hdd <;> subst hdd
    · replace h : str_lower raw = ['n'] := h
      have hne : (['n'] : Str) ≠ ['y'] := by decide
      have hnil : (['n'] : Str) ≠ [] := by decide
      simp [answer_of, h, hne, hnil]
    · replace h : str_lower raw = ['y'] := h
      have hne : (['y'] : Str) ≠ ['n'] := by decide
      have hnil : (['y'] : Str) ≠ [] := by decide
      simp [answer_of, h, hne, hnil]
  · intro raw h1 h2 h3
    rcases hd with hdd | hdd <;> subst hdd
    · replace h2 : str_lower raw ≠ ['n'] := h2
      simp [answer_of, h1, h2, h3]
    · replace h2 : str_lower raw ≠ ['y'] := h2
      simp [answer_of, h1, h2, h3]
  · intro raw rest h
    simp [confirm_loop, h]

/-- C5, witness: with default `'y'`, the uppercase variants `Y` and `N`
confirm and decline respectively, `maybe` yields no decision, and an
undecided line leaves the loop to consume the rest of the input. -/
theorem claim_c5_witness :
    answer_of ['y'] "Y".data = some true ∧
    answer_of ['y'] "N".data = some false ∧
    answer_of ['y'] "maybe".data = none ∧
    confirm_loop ['y'] ["maybe".data, "n".data] = confirm_loop ['y'] ["n".data] := by
  have h := claim_c5_confirmation_gate ['y'] (Or.inl rfl)
  exact ⟨h.1 "Y".data (by decide), h.2.2.1 "N".data (by decide),
    h.2.2.2.1 "maybe".data (by decide) (by decide) (by decide),
    h.2.2.2.2 "maybe".data ["n".data] (by decide)⟩

/-- C6: the batch processor rejects, before the confirmation prompt and
before any send, both a table with zero data rows and a table whose
header lacks the exact field name `EmailAddress`; in each case the trace
is the single validation-error event, containing no prompt and no
submission. -/
theorem claim_c6_batch_validation (rows : List Recipient) (args : CliArguments)
    (inputs : List Str) :
    (rows = [] →
      send_multiple_emails rows args inputs = [.validation_error_too_short] ∧
      Event.confirm_prompt ∉ send_multiple_emails rows args inputs ∧
      ∀ r m env, Event.send r m env ∉ send_multiple_emails rows args inputs) ∧
    (∀ r0 rest, rows = r0 :: rest → "EmailAddress".data ∉ recipient_keys r0 →
      send_multiple_emails rows args inputs = [.validation_error_missing_field] ∧
      Event.confirm_prompt ∉ send_multiple_emails rows args inputs ∧
      ∀ r m env, Event.send r m env ∉ send_multiple_emails rows args inputs) := by
  constructor
  · intro h; subst h
    refine ⟨rfl, by simp [send_multiple_emails], ?_⟩
    intro r m env
    simp [send_multiple_emails]
  · intro r0 rest h hk; subst h
    have he : send_multiple_emails (r0 :: rest) args inputs
        = [.validation_error_missing_field] := by
      simp [send_multiple_emails, hk]
    refine ⟨he, by rw [he]; simp, ?_⟩
    intro r m env
    rw [he]; simp

/-- C6, witness: the empty table is rejected as too short, and a table
whose only columns are literally `Email` and `email_address` is rejected
for the missing `EmailAddress` field. -/
theorem claim_c6_witness :
    send_multiple_emails [] sample_args [] = [.validation_error_too_short] ∧
    send_multiple_emails [wrong_header_row] sample_args []
      = [.validation_error_missing_field] := by
  have h1 := claim_c6_batch_validation [] sample_args []
  have h2 := claim_c6_batch_validation [wrong_header_row] sample_args []
  exact ⟨(h1.1 rfl).1, (h2.2 wrong_header_row [] rfl (by decide)).1⟩

/-- C7: if the operator declines the confirmation prompt of a validated
batch run, the trace is the prompt followed by the warning-level
termination event, with no submission for any recipient. -/
theorem claim_c7_decline_aborts (rows : List Recipient) (args : CliArguments)
    (inputs : List Str) (r0 : Recipient) (rest : List Recipient)
    (hrows : rows = r0 :: rest)
    (hkey : "EmailAddress".data ∈ recipient_keys r0)
    (hdecline : confirm_loop ['y'] inputs = some false) :
    send_multiple_emails rows args inputs = [.confirm_prompt, .user_declined] ∧
    ∀ r m env, Event.send r m env ∉ send_multiple_emails rows args inputs := by
  subst hrows
  have he : send_multiple_emails (r0 :: rest) args inputs
      = [.confirm_prompt, .user_declined] := by
    simp [send_multiple_emails, hkey, hdecline]
  exact ⟨he, by rw [he]; intro r m env; simp⟩

/-- C7, witness: a one-row table declined with input `n` produces only
the prompt and the termination event. -/
theorem claim_c7_witness :
    send_multiple_emails [alice_row] sample_args ["n".data]
      = [.confirm_prompt, .user_declined] :=
  (claim_c7_decline_aborts [alice_row] sample_args ["n".data] alice_row [] rfl
    (by decide) (by decide)).1

/-- C8: whenever exactly one of the SMTP username and password is
configured, `main` stops with the configuration error — an outcome
carrying no connection or submission events — regardless of the rest of
the configuration. -/
theorem claim_c8_half_credentials (args : CliArguments) (inputs : List Str)
    (h : (args.smtp_username ≠ none ∧ args.smtp_password = none) ∨
         (args.smtp_username = none ∧ args.smtp_password ≠ none)) :
    main args inputs = .configuration_error := by
  have hc : credential_mismatch args = true := by
    rcases h with ⟨h1, h2⟩ | ⟨h1, h2⟩ <;>
      cases hu : args.smtp_username <;> cases hp : args.smtp_password <;>
        simp_all [credential_mismatch]
  simp [main, hc]

/-- C8, witness: a username with no password is rejected. -/
theorem claim_c8_witness :
    main half_credentials_args [] = .configuration_error :=
  claim_c8_half_credentials half_credentials_args [] (Or.inl (by decide))

/-- C9: `confirm_action` is well-defined exactly for the defaults `'y'`
and `'n'`: for those, every path assigns the prompt suffix before its
use and the call returns an ordinary outcome; for any other default the
prompt variable is never assigned and the call fails before presenting
the question (no question line is shown). -/
theorem claim_c9_default_precondition (question default : Str) (inputs : List Str) :
    ((default = ['y'] ∨ default = ['n']) →
      ∃ shown value, confirm_action question default inputs = (shown, .ok value)) ∧
    (default ≠ ['y'] → default ≠ ['n'] →
      confirm_action question default inputs = ([], .unbound_local_error)) := by
  constructor
  · rintro (h | h) <;> subst h <;> exact ⟨_, _, rfl⟩
  · intro h1 h2
    have hp : prompt_for default = none := by simp [prompt_for, h1, h2]
    simp [confirm_action, hp]

/-- C9, witness: default `'x'` fails before the question is presented,
even with a decisive input line available. -/
theorem claim_c9_witness :
    confirm_action "continue?".data "x".data ["y".data] = ([], .unbound_local_error) :=
  (claim_c9_default_precondition "continue?".data "x".data ["y".data]).2
    (by decide) (by decide)

/-! ### Scanning lemmas for `pyReplace` on dollar-delimited strings -/

theorem isPrefixOf_append_self : ∀ (pat r : Str), pat.isPrefixOf (pat ++ r) = true := by
  intro pat r
  induction pat with
  | nil => simp [List.isPrefixOf]
  | cons a as ih => simp [List.isPrefixOf, ih]

theorem pyReplace_pattern_head (pat sub r : Str) (hp : pat ≠ []) :
    pyReplace (pat ++ r) pat sub = sub ++ pyReplace r pat sub := by
  rw [pyReplace_matched pat sub (pat ++ r) hp (isPrefixOf_append_self pat r),
    List.drop_left pat r]

theorem pyReplace_free_prefix (p sub a r : Str) (ha : '$' ∉ a) :
    pyReplace (a ++ r) ('$' :: p) sub = a ++ pyReplace r ('$' :: p) sub := by
  induction a with
  | nil => simp
  | cons c a' ih =>
    have hc : '$' ≠ c := fun h => ha (h ▸ List.mem_cons_self c a')
    have hnp : ¬ ('$' :: p).isPrefixOf (c :: (a' ++ r)) = true := by
      simp [List.isPrefixOf, hc]
    rw [List.cons_append, pyReplace_unmatched ('$' :: p) sub c (a' ++ r) (by simp) hnp,
      ih fun h => ha (List.mem_cons_of_mem c h), List.cons_append]

theorem pyReplace_dollar_free (p sub a : Str) (ha : '$' ∉ a) :
    pyReplace a ('$' :: p) sub = a := by
  have h := pyReplace_free_prefix p sub a [] ha
  simpa [pyReplace_nil] using h

theorem pyReplace_no_occurrence (pat sub : Str) (hp : pat ≠ []) :
    ∀ s : Str, ¬ pat <:+: s → pyReplace s pat sub = s := by
  intro s
  induction s with
  | nil => intro _; exact pyReplace_nil pat sub
  | cons c rest ih =>
    intro h
    have hnp : ¬ pat.isPrefixOf (c :: rest) = true := fun hb =>
      h ( List.IsPrefix.isInfix (List.isPrefixOf_iff_prefix.mp hb))
    rw [pyReplace_unmatched pat sub c rest hp hnp, ih fun hi => h (List.infix_cons hi)]

theorem dollar_free_no_token (p s : Str) (hs : '$' ∉ s) : ¬ ('$' :: p) <:+: s :=
  fun h => hs (h.sublist.subset (List.mem_cons_self '$' p))

/-! ### Substitution over token-delimited bodies -/

theorem join_with_free (sub : Str) (segs : List Str)
    (hsegs : ∀ s ∈ segs, '$' ∉ s) (hsub : '$' ∉ sub) :
    '$' ∉ join_with sub segs := by
  induction segs with
  | nil => simp [join_with]
  | cons s rest ih =>
    cases rest with
    | nil => exact hsegs s (List.mem_cons_self s [])
    | cons s' t =>
      have hs : '$' ∉ s := hsegs s (List.mem_cons_self _ _)
      have hrest : '$' ∉ join_with sub (s' :: t) :=
        ih fun u hu => hsegs u (List.mem_cons_of_mem s hu)
      intro hmem
      rcases List.mem_append.mp hmem with h12 | h
      · rcases List.mem_append.mp h12 with h1 | h2
        · exact hs h1
        · exact hsub h2
      · exact hrest h

theorem pyReplace_join (p sub : Str) (segs : List Str)
    (hsegs : ∀ s ∈ segs, '$' ∉ s) :
    pyReplace (join_with ('$' :: p) segs) ('$' :: p) sub = join_with sub segs := by
  induction segs with
  | nil => exact pyReplace_nil _ _
  | cons s rest ih =>
    cases rest with
    | nil => exact pyReplace_dollar_free p sub s (hsegs s (List.mem_cons_self s []))
    | cons s' t =>
      have hs : '$' ∉ s := hsegs s (List.mem_cons_self _ _)
      have hrest := ih fun u hu => hsegs u (List.mem_cons_of_mem s hu)
      show pyReplace (s ++ ('$' :: p) ++ join_with ('$' :: p) (s' :: t)) ('$' :: p) sub
          = s ++ sub ++ join_with sub (s' :: t)
      rw [List.append_assoc, pyReplace_free_prefix p sub s _ hs,
        pyReplace_pattern_head ('$' :: p) sub _ (by simp), hrest, List.append_assoc]

theorem free_append_dollar_inj (x : Str) :
    ∀ (k u w : Str), '$' ∉ x → '$' ∉ k →
      x ++ '$' :: u = k ++ '$' :: w → x = k ∧ u = w := by
  induction x with
  | nil =>
    intro k u w _ hk h
    cases k with
    | nil =>
      simp only [List.nil_append] at h
      exact ⟨rfl, (List.cons.injEq _ _ _ _ ▸ h).2⟩
    | cons d k' =>
      exfalso
      simp only [List.nil_append, List.cons_append, List.cons.injEq] at h
      exact hk (h.1 ▸ List.mem_cons_self d k')
  | cons c x' ih =>
    intro k u w hx hk h
    cases k with
    | nil =>
      exfalso
      simp only [List.nil_append, List.cons_append, List.cons.injEq] at h
      exact hx (h.1 ▸ List.mem_cons_self c x')
    | cons d k' =>
      simp only [List.cons_append, List.cons.injEq] at h
      obtain ⟨rfl, h2⟩ := h
      have hx' : '$' ∉ x' := fun hm => hx (List.mem_cons_of_mem _ hm)
      have hk' : '$' ∉ k' := fun hm => hk (List.mem_cons_of_mem _ hm)
      obtain ⟨he, hu⟩ := ih k' u w hx' hk' h2
      exact ⟨by rw [he], hu⟩

theorem infix_dollar_through_free (p : Str) :
    ∀ (a b : Str), '$' ∉ a → ('$' :: p) <:+: a ++ b → ('$' :: p) <:+: b := by
  intro a
  induction a with
  | nil => intro b _ h; simpa using h
  | cons c a' ih =>
    intro b ha h
    rw [List.cons_append] at h
    rcases List.infix_cons_iff.mp h with hpre | hinf
    · exfalso
      have := (List.cons_prefix_cons.mp hpre).1
      exact ha (this ▸ List.mem_cons_self c a')
    · exact ih b (fun hm => ha (List.mem_cons_of_mem c hm)) hinf

theorem token_not_infix_join (x k : Str) (hx : '$' ∉ x) (hk : '$' ∉ k) (hxk : x ≠ k) :
    ∀ segs : List Str, (∀ s ∈ segs, '$' ∉ s) → x ∉ segs.tail.dropLast →
      ¬ token x <:+: join_with (token k) segs := by
  intro segs
  induction segs with
  | nil =>
    intro _ _ h
    have : token x = [] := List.infix_nil.mp h
    simp [token] at this
  | cons s rest ih =>
    intro hsegs hint
    cases rest with
    | nil =>
      exact dollar_free_no_token (x ++ ['$']) s (hsegs s (List.mem_cons_self s []))
    | cons s' t =>
      intro h
      have hs : '$' ∉ s := hsegs s (List.mem_cons_self _ _)
      have hs' : '$' ∉ s' := hsegs s' (by simp)
      have h1 : token x <:+: token k ++ join_with (token k) (s' :: t) := by
        apply infix_dollar_through_free (x ++ ['$']) s _ hs
        rw [show join_with (token k) (s :: s' :: t)
            = s ++ token k ++ join_with (token k) (s' :: t) from rfl,
          List.append_assoc] at h
        exact h
      have h1' : ('$' :: (x ++ ['$']))
          <:+: '$' :: ((k ++ ['$']) ++ join_with (token k) (s' :: t)) := h1
      rcases List.infix_cons_iff.mp h1' with hpre | hinf
      · have h2 := (List.cons_prefix_cons.mp hpre).2
        obtain ⟨r, hr⟩ := h2
        have hr' : x ++ '$' :: r = k ++ '$' :: join_with (token k) (s' :: t) := by
          simpa [List.append_assoc] using hr
        exact hxk (free_append_dollar_inj x k r _ hx hk hr').1
      · have h3 : ('$' :: (x ++ ['$'])) <:+: '$' :: join_with (token k) (s' :: t) := by
          apply infix_dollar_through_free (x ++ ['$']) k _ hk
          have e3 : (k ++ ['$']) ++ join_with (token k) (s' :: t)
              = k ++ '$' :: join_with (token k) (s' :: t) := by
            simp [List.append_assoc]
          rw [e3] at hinf
          exact hinf
        rcases List.infix_cons_iff.mp h3 with hpre2 | hinf2
        · have h4 := (List.cons_prefix_cons.mp hpre2).2
          cases t with
          | nil =>
            have hmem : '$' ∈ join_with (token k) [s'] :=
              h4.sublist.subset (by simp)
            exact hs' hmem
          | cons t0 t' =>
            obtain ⟨r, hr⟩ := h4
            have hr0 : x ++ '$' :: r = join_with (token k) (s' :: t0 :: t') := by
              simpa [List.append_assoc] using hr
            have hr' : x ++ '$' :: r
                = s' ++ '$' :: ((k ++ ['$']) ++ join_with (token k) (t0 :: t')) := by
              rw [hr0, show join_with (token k) (s' :: t0 :: t')
                  = s' ++ token k ++ join_with (token k) (t0 :: t') from rfl,
                List.append_assoc]
              rfl
            have hxs : x = s' := (free_append_dollar_inj x s' r _ hx hs' hr').1
            apply hint
            rw [hxs]
            simp [List.dropLast_cons₂]
        · refine ih (fun u hu => hsegs u (List.mem_cons_of_mem s hu)) ?_ hinf2
          intro hmem
          apply hint
          cases t with
          | nil => simp at hmem
          | cons t0 t' =>
            simp only [List.tail_cons, List.dropLast_cons₂] at hmem ⊢
            exact List.mem_cons_of_mem s' hmem

theorem fold_free : ∀ (replacement_values : List (Str × Str)) (s : Str),
    '$' ∉ s → replace_placeholders s replacement_values = s := by
  intro m
  induction m with
  | nil => intro s _; rfl
  | cons kv m' ih =>
    intro s hs
    have hno : pyReplace s (token kv.1) kv.2 = s := by
      apply pyReplace_no_occurrence (token kv.1) kv.2 (by simp [token]) s
      exact dollar_free_no_token (kv.1 ++ ['$']) s hs
    show replace_placeholders (pyReplace s (token kv.1) kv.2) m' = s
    rw [hno]
    exact ih s hs

theorem fold_reaches_free (k : Str) (segs : List Str)
    (hk : '$' ∉ k) (hsegs : ∀ s ∈ segs, '$' ∉ s) :
    ∀ (m : List (Str × Str)),
      (∀ kv ∈ m, '$' ∉ kv.1 ∧ '$' ∉ kv.2) →
      (∀ kv ∈ m, kv.1 = k ∨ kv.1 ∉ segs.tail.dropLast) →
      k ∈ m.map Prod.fst →
      '$' ∉ replace_placeholders (join_with (token k) segs) m := by
  intro m
  induction m with
  | nil => intro _ _ hmem; simp at hmem
  | cons kv m' ih =>
    intro hkeys hint hmem
    show '$' ∉ replace_placeholders
      (pyReplace (join_with (token k) segs) (token kv.1) kv.2) m'
    by_cases he : kv.1 = k
    · have hstep : pyReplace (join_with (token k) segs) (token kv.1) kv.2
          = join_with kv.2 segs := by
        rw [he]
        exact pyReplace_join (k ++ ['$']) kv.2 segs hsegs
      rw [hstep]
      have hfree : '$' ∉ join_with kv.2 segs :=
        join_with_free kv.2 segs hsegs (hkeys kv (List.mem_cons_self _ _)).2
      rw [fold_free m' _ hfree]
      exact hfree
    · have hnot : ¬ token kv.1 <:+: join_with (token k) segs := by
        apply token_not_infix_join kv.1 k
          (hkeys kv (List.mem_cons_self _ _)).1 hk he segs hsegs
        rcases hint kv (List.mem_cons_self _ _) with h | h
        · exact absurd h he
        · exact h
      have hstep : pyReplace (join_with (token k) segs) (token kv.1) kv.2
          = join_with (token k) segs :=
        pyReplace_no_occurrence (token kv.1) kv.2 (by simp [token]) _ hnot
      rw [hstep]
      refine ih (fun u hu => hkeys u (List.mem_cons_of_mem kv hu))
        (fun u hu => hint u (List.mem_cons_of_mem kv hu)) ?_
      rcases List.mem_map.mp hmem with ⟨u, hu, hfst⟩
      rcases List.mem_cons.mp hu with rfl | hu'
      · exact absurd hfst he
      · exact List.mem_map.mpr ⟨u, hu', hfst⟩

/-- C2, counterexample: for the body `$a$` and mapping `a ↦ $a$`, the
substituted body still contains the token `$a$` of the mapped key `a`:
sequential literal replacement can reintroduce tokens, so full
substitution does not hold for every body and mapping. -/
theorem claim_c2_counterexample :
    "a".data ∈ ([("a".data, "$a$".data)].map Prod.fst) ∧
    token "a".data <:+: replace_placeholders "$a$".data [("a".data, "$a$".data)] := by
  decide

/-- C2 (amended): full substitution holds for bodies whose dollar signs
occur exactly as the delimiters of non-overlapping occurrences of one
mapped key's token: if the body splits into dollar-free segments
separated by occurrences of `$k$` for some key `k` of the mapping, every
key and value of the mapping is dollar-free, and no other key of the
mapping coincides with a segment lying strictly between two token
occurrences, then the substituted body contains zero occurrences of
`$j$` for every key `j` of the mapping. -/
theorem claim_c2_full_substitution (body : Str)
    (replacement_values : List (Str × Str)) (k : Str) (segs : List Str)
    (hbody : body = join_with (token k) segs)
    (hsegs : ∀ s ∈ segs, '$' ∉ s)
    (hkeys : ∀ kv ∈ replacement_values, '$' ∉ kv.1 ∧ '$' ∉ kv.2)
    (hk : k ∈ replacement_values.map Prod.fst)
    (hint : ∀ kv ∈ replacement_values, kv.1 = k ∨ kv.1 ∉ segs.tail.dropLast) :
    ∀ j ∈ replacement_values.map Prod.fst,
      ¬ token j <:+: replace_placeholders body replacement_values := by
  subst hbody
  have hkfree : '$' ∉ k := by
    rcases List.mem_map.mp hk with ⟨kv, hkv, hfst⟩
    exact hfst ▸ (hkeys kv hkv).1
  have hfree : '$' ∉ replace_placeholders (join_with (token k) segs) replacement_values :=
    fold_reaches_free k segs hkfree hsegs replacement_values hkeys hint hk
  intro j hj h
  exact hfree (h.sublist.subset (by simp [token]))

/-- C2, witness: for the body `Hi $Name$!` and the mapping of the batch
scenario, no token of a mapped key survives substitution. -/
theorem claim_c2_witness :
    ¬ token "Name".data <:+:
        replace_placeholders "Hi $Name$!".data
          [("EmailAddress".data, "a@x.com".data), ("Name".data, "Alice".data)] := by
  have h := claim_c2_full_substitution "Hi $Name$!".data
    [("EmailAddress".data, "a@x.com".data), ("Name".data, "Alice".data)]
    "Name".data ["Hi ".data, "!".data]
    (by decide) (by decide) (by decide) (by decide) (by decide)
  exact h "Name".data (by decide)

end TrojanEmailer
